import Mathlib

/-!
Shallow embedding of the document segmentation and normalization engine in
`src/ingestion/parse_codexes.py` (functions `clean_text`, `ARTICLE_HEADER`,
`parse_article_page` with its inner `save_article`, `parse_codex`, and the
corpus-combining part of `main`), together with proofs settling the frozen
claims about it.

Modelling conventions:
* Python `str` is `String` / `List Char`; `len` is `String.length`.
* Python's `\s` (in `str` patterns) is modelled by `isPySpace`, covering the
  ASCII whitespace/control range plus U+0085 and U+00A0; wider Unicode space
  classes do not occur in any input relevant to the claims.
* Python's `\d` is modelled by ASCII `Char.isDigit`; article numbers in the
  documents are ASCII digits.
* `str.lower()` / `re.IGNORECASE` are modelled by `pyLower`, which folds ASCII
  A–Z and the Cyrillic ranges actually occurring in the patterns and marker
  strings (U+0410–U+042F and Ё U+0401).
* BeautifulSoup's element tree is the inductive `DomNode`; `get_text(strip=True)`
  of a `<p>` is its stored text field (input model); `find_all("p", recursive=True)`
  is a preorder traversal.
* File-system access (`extract_chapter_from_index`, reading HTML files) is an
  external collaborator; the chapter lookup is passed in as a function
  parameter `chapterOf`, and a Code's page set is passed as a list of
  (page stem, DOM) pairs, already restricted to `*.html` files, so the
  `name == "index.html"` skip becomes a `stem ≠ "index"` filter.
-/

/-- Python `\s` for `str` patterns, restricted to the Latin-1 whitespace
characters (ASCII whitespace/controls, NEL, NBSP). -/
def isPySpace (c : Char) : Bool :=
  c == ' ' || c == '\t' || c == '\n' || c == '\r' || c == '\x0b' || c == '\x0c' ||
  c == '\x1c' || c == '\x1d' || c == '\x1e' || c == '\x1f' || c == '\x85' || c == '\xa0'

/-- Case folding used by `str.lower()` / `re.IGNORECASE`, covering ASCII and
the Cyrillic letters appearing in the source's patterns and marker strings. -/
def pyLower (c : Char) : Char :=
  if 'A' ≤ c ∧ c ≤ 'Z' then Char.ofNat (c.toNat + 32)
  else if 'А' ≤ c ∧ c ≤ 'Я' then Char.ofNat (c.toNat + 32)
  else if c = 'Ё' then 'ё'
  else c

/-- `re.sub(r"\s+", " ", text)`: collapse each maximal whitespace run to a
single space.  The flag records whether the previous character was whitespace. -/
def subWsRuns : Bool → List Char → List Char
  | _, [] => []
  | prevWs, c :: cs =>
    if isPySpace c then
      (if prevWs then [] else [' ']) ++ subWsRuns true cs
    else
      c :: subWsRuns false cs

/-- `clean_text` from the source: collapse whitespace runs to single spaces,
strip the ends, then replace any remaining NBSP by a space (a no-op after the
collapse, kept for faithfulness). -/
def cleanText (s : String) : String :=
  let t := subWsRuns false s.toList
  let t := t.dropWhile isPySpace
  let t := (t.reverse.dropWhile isPySpace).reverse
  String.mk (t.map (fun c => if c = '\xa0' then ' ' else c))

/-- Python's substring test `needle in hay`. -/
def hasSubstr (needle : List Char) : List Char → Bool
  | [] => decide (needle = [])
  | c :: cs => needle.isPrefixOf (c :: cs) || hasSubstr needle cs

/-- The `SKIP_MARKERS` list from the source. -/
def SKIP_MARKERS : List String :=
  ["консультантплюс", "подготовлен", "изменяющих документов",
   "путеводител", "судебная практика", "перспективы и риски",
   "примечание.", "(в ред.", "открыть полный текст",
   "готовые решения", "см. также", "позиции высших судов",
   "истец (заявитель)", "ответчик хочет", "истец хочет",
   "что нужно доказать", "какие обстоятельства",
   "рекомендации по составлению", "как составить"]

/-! ### The Header Grammar

`ARTICLE_HEADER = re.compile(r"(?:.*?\s)?Статья\s+(\d+(?:\.\d+)?)\s*\.\s*(.+)",
re.IGNORECASE)`, used via `.match` (anchored at the start of the line only,
with backtracking).  The matcher below reproduces Python's backtracking order:

* the greedy optional group `(?:.*?\s)?` is tried *present* first; inside it
  the lazy `.*?` tries the shortest prefix first, so the engine scans forward
  over non-newline characters, and at every whitespace character attempts the
  rest of the pattern just after it (`headerSearchGo`); only if every such
  attempt fails is the group dropped and the rest tried at position 0;
* `\s+` and `\d+` are maximal-munch (whitespace, digits and the characters
  that may follow are disjoint, so no backtracking can arise there);
* the optional `(?:\.\d+)?` is greedy: it is consumed when present, and given
  back if the tail `\s*\.\s*(.+)` then fails (`matchCore`);
* in the tail, `\s*` before `.` is maximal-munch; the final `\s*(.+)` is
  greedy `\s*` with backtracking so that `(.+)` can still take at least one
  non-newline character (`titleTail`).
-/

/-- Match the literal marker word case-insensitively, returning the rest. -/
def dropLitCI (lit : List Char) (s : List Char) : Option (List Char) :=
  match lit, s with
  | [], rest => some rest
  | _ :: _, [] => none
  | l :: ls, c :: cs => if pyLower c = pyLower l then dropLitCI ls cs else none

/-- The tail `\s*(.+)` of the pattern, after the literal dot: greedy `\s*`
backtracks just enough for `(.+)` to take one non-newline character; the
captured group is the maximal non-newline run from there. -/
def titleTail (rest : List Char) : Option (List Char) :=
  let r := rest.dropWhile isPySpace
  if r ≠ [] then
    some (r.takeWhile (fun c => c ≠ '\n'))
  else
    match (rest.takeWhile isPySpace).reverse.dropWhile (fun c => c = '\n') with
    | [] => none
    | c :: _ => some [c]

/-- `\s*\.\s*(.+)`: optional whitespace, a literal dot, then `titleTail`. -/
def dotTitle (r : List Char) : Option (List Char) :=
  match r.dropWhile isPySpace with
  | '.' :: rest => titleTail rest
  | _ => none

/-- The pattern from the marker word on:
`Статья\s+(\d+(?:\.\d+)?)\s*\.\s*(.+)`.  Returns `(group 1, group 2)`. -/
def matchCore (s : List Char) : Option (String × String) :=
  match dropLitCI "Статья".toList s with
  | none => none
  | some r1 =>
    if r1.takeWhile isPySpace = [] then none
    else
      let r2 := r1.dropWhile isPySpace
      let d1 := r2.takeWhile Char.isDigit
      if d1 = [] then none
      else
        let r3 := r2.dropWhile Char.isDigit
        match r3 with
        | '.' :: rest =>
          let d2 := rest.takeWhile Char.isDigit
          if d2 ≠ [] then
            match dotTitle (rest.dropWhile Char.isDigit) with
            | some title => some (String.mk (d1 ++ '.' :: d2), String.mk title)
            | none =>
              -- backtrack: give the fractional part back to `\s*\.\s*(.+)`
              match dotTitle r3 with
              | some title => some (String.mk d1, String.mk title)
              | none => none
          else
            match dotTitle r3 with
            | some title => some (String.mk d1, String.mk title)
            | none => none
        | _ =>
          match dotTitle r3 with
          | some title => some (String.mk d1, String.mk title)
          | none => none

/-- The prefix-present branch `(?:.*?\s)`: scan forward over non-newline
characters, attempting `matchCore` right after each whitespace character;
lazy `.*?` means the earliest succeeding position wins. -/
def headerSearchGo : List Char → Option (String × String)
  | [] => none
  | c :: rest =>
    if isPySpace c then
      match matchCore rest with
      | some r => some r
      | none => if c = '\n' then none else headerSearchGo rest
    else
      if c = '\n' then none else headerSearchGo rest

/-- `ARTICLE_HEADER.match(text)`, returning `(group 1, group 2)` on success.
The greedy optional group is tried present first, then absent. -/
def articleHeaderMatch (s : String) : Option (String × String) :=
  match headerSearchGo s.toList with
  | some r => some r
  | none => matchCore s.toList

/-! ### The DOM model and paragraph stream -/

/-- A BeautifulSoup element: tag, `class` attribute list, the stripped text
`get_text(strip=True)` would produce for a `<p>` (input model), and children. -/
inductive DomNode where
  | node (tag : String) (classes : List String) (text : String) (children : List DomNode)

def DomNode.tag : DomNode → String
  | .node t _ _ _ => t

def DomNode.classes : DomNode → List String
  | .node _ c _ _ => c

def DomNode.text : DomNode → String
  | .node _ _ t _ => t

def DomNode.children : DomNode → List DomNode
  | .node _ _ _ ch => ch

mutual
/-- `content.find_all("p", recursive=True)` paired with each `<p>`'s direct
parent's `class` list (`p.parent.get("class", [])` in the source): preorder
traversal, threading the parent's classes down one level. -/
def collectParas (parentClasses : List String) : DomNode → List (String × List String)
  | .node tag cls txt children =>
    (if tag = "p" then [(txt, parentClasses)] else []) ++ collectParasList cls children

/-- `collectParas` over a sibling list. -/
def collectParasList (parentClasses : List String) : List DomNode → List (String × List String)
  | [] => []
  | c :: cs => collectParas parentClasses c ++ collectParasList parentClasses cs
end

/-- The paragraph stream of the `div.document-page__content` container:
its descendants' `<p>` elements with their direct parents' classes. -/
def pageParas (content : DomNode) : List (String × List String) :=
  collectParasList content.classes content.children

mutual
/-- Paragraphs paired with whether some strict ancestor (inside the content
container) carries an edit/insert class — used to state nesting at any depth. -/
def parasUnder (flag : Bool) (editCls : List String → Bool) : DomNode → List (String × Bool)
  | .node tag cls txt children =>
    (if tag = "p" then [(txt, flag)] else []) ++
      parasUnderList (flag || editCls cls) editCls children

/-- `parasUnder` over a sibling list. -/
def parasUnderList (flag : Bool) (editCls : List String → Bool) :
    List DomNode → List (String × Bool)
  | [] => []
  | c :: cs => parasUnder flag editCls c ++ parasUnderList flag editCls cs
end

/-! ### The data model -/

/-- One Article Record, as built in `save_article`. -/
structure Article where
  codex : String
  codex_id : String
  chapter : String
  article_num : String
  article_title : String
  text : String
  url : String
deriving DecidableEq, Repr

/-- Association-list lookup with a default, modelling `dict.get(k, d)`. -/
def lookupD (m : List (String × String)) (k d : String) : String :=
  match m.find? (fun p => p.1 = k) with
  | some p => p.2
  | none => d

/-- The `CODEX_NAMES` dict from the source. -/
def CODEX_NAMES : List (String × String) :=
  [("gk1", "Гражданский кодекс РФ (часть 1)"),
   ("gk2", "Гражданский кодекс РФ (часть 2)"),
   ("gk3", "Гражданский кодекс РФ (часть 3)"),
   ("gk4", "Гражданский кодекс РФ (часть 4)"),
   ("uk", "Уголовный кодекс РФ"),
   ("tk", "Трудовой кодекс РФ"),
   ("nk1", "Налоговый кодекс РФ (часть 1)"),
   ("nk2", "Налоговый кодекс РФ (часть 2)"),
   ("sk", "Семейный кодекс РФ"),
   ("jk", "Жилищный кодекс РФ"),
   ("koap", "КоАП РФ")]

/-- The `CODEX_URLS` dict from the source. -/
def CODEX_URLS : List (String × String) :=
  [("gk1", "https://www.consultant.ru/document/cons_doc_LAW_5142/"),
   ("gk2", "https://www.consultant.ru/document/cons_doc_LAW_9027/"),
   ("gk3", "https://www.consultant.ru/document/cons_doc_LAW_34154/"),
   ("gk4", "https://www.consultant.ru/document/cons_doc_LAW_64629/"),
   ("uk", "https://www.consultant.ru/document/cons_doc_LAW_10699/"),
   ("tk", "https://www.consultant.ru/document/cons_doc_LAW_34683/"),
   ("nk1", "https://www.consultant.ru/document/cons_doc_LAW_19671/"),
   ("nk2", "https://www.consultant.ru/document/cons_doc_LAW_28165/"),
   ("sk", "https://www.consultant.ru/document/cons_doc_LAW_8982/"),
   ("jk", "https://www.consultant.ru/document/cons_doc_LAW_51057/"),
   ("koap", "https://www.consultant.ru/document/cons_doc_LAW_34661/")]

/-! ### The segmentation state machine (`parse_article_page`) -/

/-- The classes whose presence on a `<p>`'s direct parent excludes it. -/
def editInsertClasses : List String :=
  ["doc-edit", "document__edit", "doc-insert", "document__insert"]

/-- `any(c in parent_classes for c in ["doc-edit", ...])`. -/
def isEditInsertCls (cls : List String) : Bool :=
  editInsertClasses.any (fun c => cls.contains c)

/-- The structural Noise-Filter test on one paragraph of the stream: is its
direct parent an edit/insert container? -/
def parentEditInsert (p : String × List String) : Bool := isEditInsertCls p.2

/-- The loop state of `parse_article_page`: the current candidate
(`current_num`, `current_title`, `current_parts`) and the emitted articles. -/
structure PState where
  currentNum : Option String
  currentTitle : String
  currentParts : List String
  articles : List Article
deriving DecidableEq, Repr

/-- The initial loop state. -/
def initState : PState :=
  { currentNum := none, currentTitle := "", currentParts := [], articles := [] }

/-- `save_article`: if a candidate exists (truthy `current_num` and nonempty
`current_parts`) and its normalized text is longer than 20 characters, append
the Article Record; otherwise leave the state unchanged.  The candidate fields
are not reset here (the source resets them at the next header line). -/
def saveArticle (codexId pageHash : String) (chapterOf : String → String → String)
    (st : PState) : PState :=
  match st.currentNum with
  | none => st
  | some num =>
    if num ≠ "" ∧ st.currentParts ≠ [] then
      let text := cleanText (String.intercalate " " st.currentParts)
      if 20 < text.length then
        { st with articles := st.articles ++
            [{ codex := lookupD CODEX_NAMES codexId codexId,
               codex_id := codexId,
               chapter := chapterOf codexId pageHash,
               article_num := num,
               article_title := st.currentTitle,
               text := text,
               url := lookupD CODEX_URLS codexId "" ++ pageHash ++ "/" }] }
      else st
    else st

/-- One iteration of the paragraph loop in `parse_article_page`. -/
def stepPara (codexId pageHash : String) (chapterOf : String → String → String)
    (st : PState) (p : String × List String) : PState :=
  if parentEditInsert p then st
  else
    let text := p.1
    if text = "" ∨ text.length < 3 then st
    else if SKIP_MARKERS.any (fun m => hasSubstr m.toList (text.toList.map pyLower)) then st
    else
      match articleHeaderMatch text with
      | some (num, title) =>
        let st' := saveArticle codexId pageHash chapterOf st
        { st' with currentNum := some num, currentTitle := cleanText title,
                   currentParts := [] }
      | none =>
        match st.currentNum with
        | some n => if n ≠ "" then { st with currentParts := st.currentParts ++ [text] } else st
        | none => st

/-- `parse_article_page` on an already-extracted paragraph stream: fold the
loop over the paragraphs, flush the final candidate, return the articles. -/
def parseArticleParas (paras : List (String × List String))
    (codexId pageHash : String) (chapterOf : String → String → String) : List Article :=
  (saveArticle codexId pageHash chapterOf
    (paras.foldl (stepPara codexId pageHash chapterOf) initState)).articles

/-- `parse_article_page` on a page's content container. -/
def parse_article_page (content : DomNode) (codexId pageHash : String)
    (chapterOf : String → String → String) : List Article :=
  parseArticleParas (pageParas content) codexId pageHash chapterOf

/-! ### The Corpus Assembler (`parse_codex` and `main`) -/

/-- Python `s.split(".")`: splitting the empty string yields `[""]`. -/
def splitDot : List Char → List (List Char)
  | [] => [[]]
  | c :: cs =>
    if c = '.' then [] :: splitDot cs
    else
      match splitDot cs with
      | g :: gs => (c :: g) :: gs
      | [] => [[c]]

/-- Digits to a natural number, most significant first. -/
def natOfDigits (ds : List Char) : Nat :=
  ds.foldl (fun n c => 10 * n + (c.toNat - '0'.toNat)) 0

/-- Python `int(str)`: optional surrounding whitespace, an optional sign, then
a nonempty digit string; anything else raises `ValueError`, modelled as `none`.
(Underscore digit grouping and non-ASCII digits are not modelled; no input
relevant to the claims contains them.) -/
def pyIntOpt (s : List Char) : Option Int :=
  let t := s.dropWhile isPySpace
  let t := (t.reverse.dropWhile isPySpace).reverse
  match t with
  | '-' :: ds => if ds ≠ [] ∧ ds.all Char.isDigit then some (-(natOfDigits ds : Int)) else none
  | '+' :: ds => if ds ≠ [] ∧ ds.all Char.isDigit then some (natOfDigits ds : Int) else none
  | ds => if ds ≠ [] ∧ ds.all Char.isDigit then some (natOfDigits ds : Int) else none

/-- The dedup key `(art["codex_id"], art["article_num"])`. -/
def articleKey (a : Article) : String × String := (a.codex_id, a.article_num)

/-- `sort_key` from `parse_codex`: `tuple(int(p) for p in article_num.split("."))`,
with `none` standing for the `ValueError` that `int` raises on a malformed group. -/
def sortKeyOpt (a : Article) : Option (List Int) :=
  (splitDot a.article_num.toList).mapM pyIntOpt

/-- The integer tuple actually used for comparison when every group parses. -/
def sortKeyOf (a : Article) : List Int := (sortKeyOpt a).getD []

/-- Python's lexicographic comparison `≤` on integer tuples (shorter tuples
compare less when they are a prefix). -/
def lexLe : List Int → List Int → Bool
  | [], _ => true
  | _ :: _, [] => false
  | x :: xs, y :: ys => if x < y then true else if y < x then false else lexLe xs ys

/-- The comparison the sort uses on records. -/
def articleLe (a b : Article) : Bool := lexLe (sortKeyOf a) (sortKeyOf b)

/-- The deduplication loop of `parse_codex`, from a given seen-set and
accumulator: the first occurrence of a key wins, later ones are dropped.
The Python `set` is modelled as the list of keys added so far (only membership
is ever queried). -/
def dedupFrom (seen : List (String × String)) : List Article → List Article
  | [] => []
  | a :: rest =>
    if articleKey a ∈ seen then dedupFrom seen rest
    else a :: dedupFrom (articleKey a :: seen) rest

/-- The dedup phase of `parse_codex` (empty initial seen-set). -/
def dedupArticles (arts : List Article) : List Article := dedupFrom [] arts

/-- The sort phase of `parse_codex`: CPython's `list.sort` computes every key
before any reordering, so a `ValueError` from `sort_key` (caught by the
`try/except`) leaves the list unchanged; otherwise the list is stably sorted
by the integer tuples.  `List.mergeSort` is a stable sort, matching Timsort's
observable behaviour for a total preorder. -/
def sortPhase (arts : List Article) : List Article :=
  if arts.all (fun a => (sortKeyOpt a).isSome) then arts.mergeSort articleLe
  else arts

/-- One fetched page of a Code: the file stem (the page hash) and its parsed
DOM.  The input list models `sorted(codex_dir.glob("*.html"))`, already in
file-name order. -/
structure PageFile where
  stem : String
  dom : DomNode

/-- The candidate records of one Code before dedup/sort: every non-index page
parsed in enumeration order (`html_file.name == "index.html"` is skipped;
the page hash is the file stem). -/
def rawCandidates (codexId : String) (pages : List PageFile)
    (chapterOf : String → String → String) : List Article :=
  (pages.filter (fun pg => pg.stem ≠ "index")).flatMap
    (fun pg => parse_article_page pg.dom codexId pg.stem chapterOf)

/-- `parse_codex`: parse all pages, dedup by composite key (first wins),
then sort by article number with the fail-soft skip. -/
def parse_codex (codexId : String) (pages : List PageFile)
    (chapterOf : String → String → String) : List Article :=
  sortPhase (dedupArticles (rawCandidates codexId pages chapterOf))

/-- The fixed Code order of `main` (iteration over `CODEX_NAMES`). -/
def codexIds : List String :=
  ["gk1", "gk2", "gk3", "gk4", "uk", "tk", "nk1", "nk2", "sk", "jk", "koap"]

/-- The Combined Corpus built by `main`: each Code's records in the declared
Code order, concatenated.  `docs` gives each Code's page set (a missing
directory is the empty list). -/
def combinedCorpus (docs : String → List PageFile)
    (chapterOf : String → String → String) : List Article :=
  codexIds.flatMap (fun cid => parse_codex cid (docs cid) chapterOf)

/-! ### Derived predicates and concrete example data -/

/-- The shape `\d+(\.\d+)?` of an article number, read off its dot-split:
one or two groups, each nonempty and all-digits. -/
def dottedNumeric (s : String) : Bool :=
  ((splitDot s.toList).length == 1 || (splitDot s.toList).length == 2) &&
  (splitDot s.toList).all (fun g => !g.isEmpty && g.all Char.isDigit)

/-- A chapter lookup returning no chapter, for concrete examples. -/
def noChapter : String → String → String := fun _ _ => ""

/-- A page on which both paragraphs sit at depth two inside a `doc-edit`
container: their direct parent is an untagged `<div>`. -/
def c1Tree : DomNode :=
  .node "div" ["document-page__content"] "" [
    .node "div" ["doc-edit"] "" [
      .node "div" [] "" [
        .node "p" [] "Статья 99. Заголовок" [],
        .node "p" [] "Этот текст достаточно длинный для записи." []]]]

/-- A line mentioning an article in running prose, away from the line start. -/
def c2Line : String := "Порядок установлен ранее, см. Статья 7. Название закона"

/-- Scenario A's page text stream, as top-level paragraphs. -/
def scenAStream : List (String × List String) :=
  [("Статья 5. Foo", []), ("Body one.", []), ("Статья 6. Bar", []), ("Body two.", [])]

/-- The same stream with bodies longer than 20 characters. -/
def scenALongStream : List (String × List String) :=
  [("Статья 5. Foo", []), ("Body one body one body one.", []),
   ("Статья 6. Bar", []), ("Body two body two body two.", [])]

/-- The record the engine emits for article 5 of `scenALongStream`. -/
def artFoo : Article :=
  { codex := "xx", codex_id := "xx", chapter := "", article_num := "5",
    article_title := "Foo", text := "Body one body one body one.", url := "h0/" }

/-- The record the engine emits for article 6 of `scenALongStream`. -/
def artBar : Article :=
  { codex := "xx", codex_id := "xx", chapter := "", article_num := "6",
    article_title := "Bar", text := "Body two body two body two.", url := "h0/" }

/-- A record with a given article number, for sort-phase examples. -/
def mkNumArt (n : String) : Article :=
  { codex := "Уголовный кодекс РФ", codex_id := "uk", chapter := "",
    article_num := n, article_title := "t",
    text := "текст статьи достаточной длины", url := "" }

/-- The `scenALongStream` page as a DOM content container. -/
def domLong : DomNode :=
  .node "div" ["document-page__content"] "" [
    .node "p" [] "Статья 5. Foo" [],
    .node "p" [] "Body one body one body one." [],
    .node "p" [] "Статья 6. Bar" [],
    .node "p" [] "Body two body two body two." []]

/-- A one-page Code input built from `domLong`. -/
def pagesLong : List PageFile := [{ stem := "h0", dom := domLong }]

/-- The production invariant of the page parser: every emitted record has a
normalized text longer than 20 characters, carries the Code identifier it was
parsed for, and an article number of shape `\d+(\.\d+)?`. -/
def GoodArt (cid : String) (a : Article) : Prop :=
  20 < a.text.length ∧ a.codex_id = cid ∧ dottedNumeric a.article_num = true

/-- The loop invariant of `parse_article_page`: all articles emitted so far
satisfy `GoodArt`, and the current candidate's number (when one is open)
has the header-grammar shape. -/
def GoodSt (cid : String) (st : PState) : Prop :=
  (∀ a ∈ st.articles, GoodArt cid a) ∧
  (∀ n, st.currentNum = some n → dottedNumeric n = true)

/-! ## Helper lemmas -/

theorem pySpace_isDigit_false {c : Char} (h : isPySpace c = true) : c.isDigit = false := by
  simp only [isPySpace, Bool.or_eq_true, beq_iff_eq] at h
  rcases h with ((((((((((h | h) | h) | h) | h) | h) | h) | h) | h) | h) | h) | h <;>
    subst h <;> decide

theorem digit_pySpace_false {c : Char} (h : c.isDigit = true) : isPySpace c = false := by
  cases hs : isPySpace c
  · rfl
  · rw [pySpace_isDigit_false hs] at h
    exact absurd h (by simp)

theorem digit_ne_dot {c : Char} (h : c.isDigit = true) : c ≠ '.' := by
  intro hc
  subst hc
  exact absurd h (by decide)

theorem splitDot_no_dot {l : List Char} (h : ∀ c ∈ l, c ≠ '.') : splitDot l = [l] := by
  induction l with
  | nil => rfl
  | cons c cs ih =>
    have hc : c ≠ '.' := h c (List.mem_cons_self ..)
    have ih' := ih (fun x hx => h x (List.mem_cons_of_mem _ hx))
    simp [splitDot, hc, ih']

theorem splitDot_append_dot {d1 d2 : List Char} (h : ∀ c ∈ d1, c ≠ '.') :
    splitDot (d1 ++ '.' :: d2) = d1 :: splitDot d2 := by
  induction d1 with
  | nil => simp [splitDot]
  | cons c cs ih =>
    have hc : c ≠ '.' := h c (List.mem_cons_self ..)
    have ih' := ih (fun x hx => h x (List.mem_cons_of_mem _ hx))
    simp [splitDot, hc, ih']

theorem pyIntOpt_digits {d : List Char} (hne : d ≠ []) (hd : d.all Char.isDigit = true) :
    (pyIntOpt d).isSome = true := by
  have hd' : ∀ c ∈ d, c.isDigit = true := List.all_eq_true.mp hd
  have hdrop : d.dropWhile isPySpace = d := by
    cases d with
    | nil => rfl
    | cons c cs =>
      exact List.dropWhile_cons_of_neg (by
        simp [digit_pySpace_false (hd' c (List.mem_cons_self ..))])
  have hrev : (d.reverse.dropWhile isPySpace).reverse = d := by
    cases hr : d.reverse with
    | nil => rw [List.dropWhile_nil, ← hr, List.reverse_reverse]
    | cons b bs =>
      have hb : b ∈ d := by
        have : b ∈ d.reverse := by rw [hr]; exact List.mem_cons_self ..
        simpa using this
      rw [List.dropWhile_cons_of_neg (by simp [digit_pySpace_false (hd' b hb)]), ← hr,
        List.reverse_reverse]
  obtain ⟨c, cs, rfl⟩ : ∃ c cs, d = c :: cs := by
    cases d with
    | nil => exact absurd rfl hne
    | cons c cs => exact ⟨c, cs, rfl⟩
  have hc := hd' c (List.mem_cons_self ..)
  unfold pyIntOpt
  dsimp only
  rw [hdrop, hrev]
  split
  · rename_i ds heq
    have : c = '-' := (List.cons.injEq ..).mp heq |>.1
    rw [this] at hc
    exact absurd hc (by decide)
  · rename_i ds heq
    have : c = '+' := (List.cons.injEq ..).mp heq |>.1
    rw [this] at hc
    exact absurd hc (by decide)
  · rw [if_pos ⟨by simp, hd⟩]
    rfl

theorem mapM_pyIntOpt_isSome {gs : List (List Char)}
    (h : ∀ g ∈ gs, (pyIntOpt g).isSome = true) : (gs.mapM pyIntOpt).isSome = true := by
  induction gs with
  | nil => rfl
  | cons g rest ih =>
    obtain ⟨v, hv⟩ := Option.isSome_iff_exists.mp (h g (List.mem_cons_self ..))
    obtain ⟨vs, hvs⟩ :=
      Option.isSome_iff_exists.mp (ih fun x hx => h x (List.mem_cons_of_mem _ hx))
    rw [List.mapM_cons, hv, hvs]
    rfl

theorem dotted_of_digits1 {d1 : List Char} (h1 : d1 ≠ []) (ha : d1.all Char.isDigit = true) :
    dottedNumeric (String.mk d1) = true := by
  have htl : (String.mk d1).toList = d1 := rfl
  have hnd : ∀ c ∈ d1, c ≠ '.' :=
    fun c hc => digit_ne_dot (List.all_eq_true.mp ha c hc)
  unfold dottedNumeric
  rw [htl, splitDot_no_dot hnd]
  simp [h1, ha]

theorem dotted_of_digits2 {d1 d2 : List Char} (h1 : d1 ≠ []) (ha : d1.all Char.isDigit = true)
    (h2 : d2 ≠ []) (hb : d2.all Char.isDigit = true) :
    dottedNumeric (String.mk (d1 ++ '.' :: d2)) = true := by
  have htl : (String.mk (d1 ++ '.' :: d2)).toList = d1 ++ '.' :: d2 := rfl
  have hnd1 : ∀ c ∈ d1, c ≠ '.' :=
    fun c hc => digit_ne_dot (List.all_eq_true.mp ha c hc)
  have hnd2 : ∀ c ∈ d2, c ≠ '.' :=
    fun c hc => digit_ne_dot (List.all_eq_true.mp hb c hc)
  unfold dottedNumeric
  rw [htl, splitDot_append_dot hnd1, splitDot_no_dot hnd2]
  simp [h1, ha, h2, hb]

theorem matchCore_shape {s : List Char} {num title : String}
    (h : matchCore s = some (num, title)) : dottedNumeric num = true := by
  unfold matchCore at h
  split at h
  · exact absurd h (by simp)
  · split at h
    · exact absurd h (by simp)
    · dsimp only at h
      split at h
      · exact absurd h (by simp)
      · rename_i r1 heq1 hws hd1
        split at h
        · rename_i rest heq3
          split at h
          · rename_i hd2
            split at h
            · rename_i t1 heqT
              rw [Option.some.injEq, Prod.mk.injEq] at h
              rw [← h.1]
              exact dotted_of_digits2 hd1 List.all_takeWhile hd2 List.all_takeWhile
            · split at h
              · rw [Option.some.injEq, Prod.mk.injEq] at h
                rw [← h.1]
                exact dotted_of_digits1 hd1 List.all_takeWhile
              · exact absurd h (by simp)
          · split at h
            · rw [Option.some.injEq, Prod.mk.injEq] at h
              rw [← h.1]
              exact dotted_of_digits1 hd1 List.all_takeWhile
            · exact absurd h (by simp)
        · split at h
          · rw [Option.some.injEq, Prod.mk.injEq] at h
            rw [← h.1]
            exact dotted_of_digits1 hd1 List.all_takeWhile
          · exact absurd h (by simp)

theorem headerSearchGo_shape : ∀ {l : List Char} {num title : String},
    headerSearchGo l = some (num, title) → dottedNumeric num = true := by
  intro l
  induction l with
  | nil => intro num title h; exact absurd h (by simp [headerSearchGo])
  | cons c rest ih =>
    intro num title h
    unfold headerSearchGo at h
    split at h
    · split at h
      · rename_i r heq
        rw [Option.some.injEq] at h
        rw [h] at heq
        exact matchCore_shape heq
      · split at h
        · exact absurd h (by simp)
        · exact ih h
    · split at h
      · exact absurd h (by simp)
      · exact ih h

theorem articleHeaderMatch_shape {t num title : String}
    (h : articleHeaderMatch t = some (num, title)) : dottedNumeric num = true := by
  unfold articleHeaderMatch at h
  split at h
  · rename_i r heq
    rw [Option.some.injEq] at h
    rw [h] at heq
    exact headerSearchGo_shape heq
  · exact matchCore_shape h

theorem goodSt_init (cid : String) : GoodSt cid initState := by
  constructor
  · intro a ha
    exact absurd ha (by simp [initState])
  · intro n hn
    exact absurd hn (by simp [initState])

theorem saveArticle_good {cid ph : String} {f : String → String → String} {st : PState}
    (h : GoodSt cid st) : GoodSt cid (saveArticle cid ph f st) := by
  unfold saveArticle
  split
  · exact h
  · rename_i num heq
    dsimp only
    split
    · split
      · rename_i hne hlen
        constructor
        · intro a ha
          simp only [List.mem_append, List.mem_singleton] at ha
          rcases ha with ha | ha
          · exact h.1 a ha
          · subst ha
            exact ⟨hlen, rfl, h.2 num heq⟩
        · intro n hn
          exact h.2 n hn
      · exact h
    · exact h

theorem stepPara_good {cid ph : String} {f : String → String → String} {st : PState}
    {p : String × List String} (h : GoodSt cid st) : GoodSt cid (stepPara cid ph f st p) := by
  unfold stepPara
  split
  · exact h
  · dsimp only
    split
    · exact h
    · split
      · exact h
      · split
        · rename_i num title heq
          refine ⟨(saveArticle_good h).1, ?_⟩
          intro n hn
          have h2 : some num = some n := hn
          have h3 : num = n := by injection h2
          rw [← h3]
          exact articleHeaderMatch_shape heq
        · split
          · split
            · exact ⟨fun a ha => h.1 a ha, fun n hn => h.2 n hn⟩
            · exact h
          · exact h

theorem foldl_stepPara_good {cid ph : String} {f : String → String → String} :
    ∀ (paras : List (String × List String)) (st : PState),
      GoodSt cid st → GoodSt cid (paras.foldl (stepPara cid ph f) st) := by
  intro paras
  induction paras with
  | nil => intro st h; exact h
  | cons p rest ih =>
    intro st h
    exact ih _ (stepPara_good h)

theorem parseArticleParas_good {paras : List (String × List String)} {cid ph : String}
    {f : String → String → String} :
    ∀ a ∈ parseArticleParas paras cid ph f, GoodArt cid a :=
  fun a ha =>
    (saveArticle_good (foldl_stepPara_good paras initState (goodSt_init cid))).1 a ha

theorem parse_article_page_good {content : DomNode} {cid ph : String}
    {f : String → String → String} :
    ∀ a ∈ parse_article_page content cid ph f, GoodArt cid a :=
  fun a ha => parseArticleParas_good a ha

theorem mem_dedupFrom : ∀ {l : List Article} {seen : List (String × String)} {a : Article},
    a ∈ dedupFrom seen l → a ∈ l := by
  intro l
  induction l with
  | nil => intro seen a h; exact absurd h (by simp [dedupFrom])
  | cons b rest ih =>
    intro seen a h
    unfold dedupFrom at h
    split at h
    · exact List.mem_cons_of_mem _ (ih h)
    · rcases List.mem_cons.mp h with h | h
      · exact h ▸ List.mem_cons_self ..
      · exact List.mem_cons_of_mem _ (ih h)

theorem mem_sortPhase {l : List Article} {a : Article} (h : a ∈ sortPhase l) : a ∈ l := by
  unfold sortPhase at h
  split at h
  · exact List.mem_mergeSort.mp h
  · exact h

theorem rawCandidates_good {cid : String} {pages : List PageFile}
    {f : String → String → String} :
    ∀ a ∈ rawCandidates cid pages f, GoodArt cid a := by
  intro a ha
  unfold rawCandidates at ha
  obtain ⟨pg, -, hmem⟩ := List.mem_flatMap.mp ha
  exact parse_article_page_good a hmem

theorem parse_codex_good {cid : String} {pages : List PageFile}
    {f : String → String → String} :
    ∀ a ∈ parse_codex cid pages f, GoodArt cid a := by
  intro a ha
  exact rawCandidates_good a (mem_dedupFrom (mem_sortPhase ha))

theorem not_mem_seen_of_mem_dedupFrom :
    ∀ {l : List Article} {seen : List (String × String)} {a : Article},
      a ∈ dedupFrom seen l → articleKey a ∉ seen := by
  intro l
  induction l with
  | nil => intro seen a h; exact absurd h (by simp [dedupFrom])
  | cons b rest ih =>
    intro seen a h
    unfold dedupFrom at h
    split at h
    · exact ih h
    · rename_i hb
      rcases List.mem_cons.mp h with h | h
      · subst h; exact hb
      · intro hmem
        exact (ih h) (List.mem_cons_of_mem _ hmem)

theorem pairwise_dedupFrom :
    ∀ {l : List Article} {seen : List (String × String)},
      (dedupFrom seen l).Pairwise (fun a b => articleKey a ≠ articleKey b) := by
  intro l
  induction l with
  | nil => intro seen; simp [dedupFrom]
  | cons b rest ih =>
    intro seen
    unfold dedupFrom
    split
    · exact ih
    · refine List.Pairwise.cons ?_ ih
      intro a ha hkey
      exact (not_mem_seen_of_mem_dedupFrom ha) (by rw [← hkey]; exact List.mem_cons_self ..)

theorem dedupFrom_filter_key :
    ∀ {l : List Article} {seen : List (String × String)} (k : String × String),
      (dedupFrom seen l).filter (fun a => decide (articleKey a = k)) =
        if k ∈ seen then [] else (l.filter (fun a => decide (articleKey a = k))).take 1 := by
  intro l
  induction l with
  | nil =>
    intro seen k
    simp [dedupFrom]
  | cons b rest ih =>
    intro seen k
    unfold dedupFrom
    by_cases hb : articleKey b ∈ seen
    · rw [if_pos hb, ih k]
      by_cases hbk : articleKey b = k
      · rw [if_pos (hbk ▸ hb), if_pos (hbk ▸ hb)]
      · rw [List.filter_cons_of_neg (by simpa using hbk)]
    · rw [if_neg hb]
      by_cases hbk : articleKey b = k
      · have hk : k ∉ seen := hbk ▸ hb
        rw [List.filter_cons_of_pos (by simpa using hbk), ih k,
          if_pos (by rw [← hbk]; exact List.mem_cons_self ..),
          if_neg hk, List.filter_cons_of_pos (by simpa using hbk), List.take_succ_cons,
          List.take_zero]
      · rw [List.filter_cons_of_neg (by simpa using hbk), ih k,
          List.filter_cons_of_neg (by simpa using hbk)]
        by_cases hk : k ∈ seen
        · rw [if_pos (List.mem_cons_of_mem _ hk), if_pos hk]
        · rw [if_neg (by
            intro hc
            rcases List.mem_cons.mp hc with hc | hc
            · exact hbk hc.symm
            · exact hk hc), if_neg hk]

theorem lexLe_total : ∀ x y : List Int, lexLe x y || lexLe y x := by
  intro x
  induction x with
  | nil => intro y; simp [lexLe]
  | cons a xs ih =>
    intro y
    cases y with
    | nil => simp [lexLe]
    | cons b ys =>
      unfold lexLe
      rcases lt_trichotomy a b with h | h | h
      · simp [h]
      · subst h
        simpa [lt_irrefl] using ih ys
      · simp [h, not_lt_of_gt h]

theorem lexLe_trans : ∀ x y z : List Int, lexLe x y → lexLe y z → lexLe x z := by
  intro x
  induction x with
  | nil => intro y z h1 h2; simp [lexLe]
  | cons a xs ih =>
    intro y z h1 h2
    cases y with
    | nil => simp [lexLe] at h1
    | cons b ys =>
      cases z with
      | nil => simp [lexLe] at h2
      | cons c zs =>
        unfold lexLe at h1 h2 ⊢
        rcases lt_trichotomy a b with hab | hab | hab
        · rcases lt_trichotomy b c with hbc | hbc | hbc
          · simp [lt_trans hab hbc]
          · subst hbc
            simp [hab]
          · simp [hbc, not_lt_of_gt hbc] at h2
        · subst hab
          rcases lt_trichotomy a c with hac | hac | hac
          · simp [hac]
          · subst hac
            simp only [lt_irrefl, if_false] at h1 h2 ⊢
            exact ih ys zs h1 h2
          · simp [hac, not_lt_of_gt hac] at h2
        · simp [hab, not_lt_of_gt hab] at h1

theorem articleLe_trans (a b c : Article) :
    articleLe a b → articleLe b c → articleLe a c :=
  lexLe_trans _ _ _

theorem articleLe_total (a b : Article) : articleLe a b || articleLe b a :=
  lexLe_total _ _

theorem sortPhase_perm (l : List Article) : List.Perm (sortPhase l) l := by
  unfold sortPhase
  split
  · exact List.mergeSort_perm l articleLe
  · exact List.Perm.refl l

theorem sortPhase_filter_small {l : List Article} {p : Article → Bool}
    (h : (l.filter p).length ≤ 1) : (sortPhase l).filter p = l.filter p := by
  have hperm : List.Perm ((sortPhase l).filter p) (l.filter p) := (sortPhase_perm l).filter p
  cases hfl : l.filter p with
  | nil =>
    rw [hfl] at hperm
    exact hperm.eq_nil
  | cons x xs =>
    cases xs with
    | nil =>
      rw [hfl] at hperm
      exact List.perm_singleton.mp hperm
    | cons y ys =>
      rw [hfl] at h
      simp at h

theorem foldl_congr_filter {σ α : Type} (f : σ → α → σ) (keep : α → Bool)
    (hid : ∀ st a, keep a = false → f st a = st) :
    ∀ (l : List α) (st : σ), (l.filter keep).foldl f st = l.foldl f st := by
  intro l
  induction l with
  | nil => intro st; rfl
  | cons a rest ih =>
    intro st
    by_cases hk : keep a = true
    · rw [List.filter_cons_of_pos hk, List.foldl_cons, List.foldl_cons, ih]
    · have hk' : keep a = false := by simpa using hk
      rw [List.filter_cons_of_neg (by simp [hk']), List.foldl_cons, hid st a hk', ih]

theorem stepPara_parentEdit_id {cid ph : String} {f : String → String → String}
    {st : PState} {p : String × List String} (h : parentEditInsert p = true) :
    stepPara cid ph f st p = st := by
  unfold stepPara
  rw [if_pos h]

theorem stepPara_short_id {cid ph : String} {f : String → String → String}
    {st : PState} {p : String × List String} (h : p.1 = "" ∨ p.1.length < 3) :
    stepPara cid ph f st p = st := by
  unfold stepPara
  split
  · rfl
  · dsimp only
    rw [if_pos h]

theorem dotted_sortKey_isSome {a : Article} (h : dottedNumeric a.article_num = true) :
    (sortKeyOpt a).isSome = true := by
  unfold dottedNumeric at h
  rw [Bool.and_eq_true] at h
  unfold sortKeyOpt
  apply mapM_pyIntOpt_isSome
  intro g hg
  have hall := List.all_eq_true.mp h.2 g hg
  rw [Bool.and_eq_true] at hall
  exact pyIntOpt_digits (by simpa using hall.1) hall.2

theorem pairwise_keyNe_flatMap :
    ∀ (ids : List String) (g : String → List Article),
      ids.Nodup →
      (∀ i, ∀ a ∈ g i, a.codex_id = i) →
      (∀ i, (g i).Pairwise (fun a b => articleKey a ≠ articleKey b)) →
      (ids.flatMap g).Pairwise (fun a b => articleKey a ≠ articleKey b) := by
  intro ids
  induction ids with
  | nil => intro g _ _ _; simp
  | cons i rest ih =>
    intro g hnd hcid hp
    rw [List.flatMap_cons, List.pairwise_append]
    refine ⟨hp i, ih g (List.Nodup.of_cons hnd) hcid hp, ?_⟩
    intro a ha b hb
    obtain ⟨j, hj, hbj⟩ := List.mem_flatMap.mp hb
    have hij : i ≠ j := by
      intro hc
      subst hc
      exact (List.nodup_cons.mp hnd).1 hj
    intro hkey
    have hfst : a.codex_id = b.codex_id := congrArg Prod.fst hkey
    rw [hcid i a ha, hcid j b hbj] at hfst
    exact hij hfst

theorem headerSearchGo_finds :
    ∀ (pre rest : List Char) (r : String × String),
      (∀ c ∈ pre, c ≠ '\n') → matchCore rest = some r →
      (headerSearchGo (pre ++ ' ' :: rest)).isSome = true := by
  intro pre
  induction pre with
  | nil =>
    intro rest r _ hm
    simp [headerSearchGo, isPySpace, hm]
  | cons c pre' ih =>
    intro rest r hnl hm
    have hc : c ≠ '\n' := hnl c (List.mem_cons_self ..)
    have ih' := ih rest r (fun x hx => hnl x (List.mem_cons_of_mem _ hx)) hm
    rw [List.cons_append]
    unfold headerSearchGo
    rw [if_neg hc]
    split
    · split
      · rfl
      · exact ih'
    · exact ih'

theorem parse_codex_sorted_branch (cid : String) (pages : List PageFile)
    (f : String → String → String) :
    parse_codex cid pages f =
      (dedupArticles (rawCandidates cid pages f)).mergeSort articleLe := by
  unfold parse_codex sortPhase
  rw [if_pos]
  apply List.all_eq_true.mpr
  intro a ha
  exact dotted_sortKey_isSome (rawCandidates_good a (mem_dedupFrom ha)).2.2

/-! ## The claims -/

/-- C1, counterexample: on `c1Tree` every paragraph is nested (at depth two)
inside a `doc-edit` container, yet the engine emits a record whose text is
exactly the nested body paragraph — the source checks only the `<p>` element's
direct parent, so deeper nesting inside an edit/insert block is not excluded
and such a paragraph's text can appear in an emitted record. -/
theorem claim_C1_counterexample :
    (parasUnder false isEditInsertCls c1Tree).all (fun q => q.2) = true ∧
    ("Этот текст достаточно длинный для записи.", true) ∈
      parasUnder false isEditInsertCls c1Tree ∧
    (parse_article_page c1Tree "uk" "h0" noChapter).map Article.text =
      ["Этот текст достаточно длинный для записи."] := by
  refine ⟨rfl, ?_, rfl⟩
  decide

/-- C1 (amended): a paragraph whose *direct* parent element carries one of the
edit/insert classes is excluded before any classification — deleting all such
paragraphs from the stream leaves the engine's output unchanged on every page,
so their text never reaches any emitted record; paragraphs nested more deeply,
whose direct parent is not itself tagged, are not excluded. -/
theorem claim_C1_direct_parent_exclusion (paras : List (String × List String))
    (cid ph : String) (f : String → String → String) :
    parseArticleParas (paras.filter (fun p => !parentEditInsert p)) cid ph f =
      parseArticleParas paras cid ph f := by
  unfold parseArticleParas
  rw [foldl_congr_filter (stepPara cid ph f) (fun p => !parentEditInsert p)
    (fun st p hp => stepPara_parentEdit_id (by simpa using hp))]

/-- C2, counterexample: a line that references an article in running prose,
with the marker word far from the line start, is matched by the Header Grammar
(the optional prefix `(?:.*?\s)?` is unbounded), and the state machine treats
it as a boundary, opening candidate number 7. -/
theorem claim_C2_counterexample :
    articleHeaderMatch c2Line = some ("7", "Название закона") ∧
    (stepPara "uk" "h0" noChapter initState (c2Line, [])).currentNum = some "7" := by
  exact ⟨rfl, rfl⟩

/-- C2 (amended): the Header Grammar is not anchored near the line start: for
any prefix of non-newline characters, a line consisting of that prefix, a
space, and text matched by the core pattern `Статья N. Title` produces a
match.  A prose mention is treated as ordinary body text only when the marker
word is not followed by the number-dot-title shape (e.g. an inflected form). -/
theorem claim_C2_unanchored (pre rest : List Char) (r : String × String)
    (hnl : ∀ c ∈ pre, c ≠ '\n') (hm : matchCore rest = some r) :
    (articleHeaderMatch (String.mk (pre ++ ' ' :: rest))).isSome = true := by
  unfold articleHeaderMatch
  have htl : (String.mk (pre ++ ' ' :: rest)).toList = pre ++ ' ' :: rest := rfl
  rw [htl]
  have hfind := headerSearchGo_finds pre rest r hnl hm
  split
  · rfl
  · rename_i heq
    rw [heq] at hfind
    exact absurd hfind (by simp)

/-- C2 witness: the amended theorem applied at a concrete prose prefix. -/
theorem claim_C2_unanchored_witness :
    (∀ c ∈ "Порядок установлен ранее, см.".toList, c ≠ '\n') ∧
    matchCore "Статья 7. Название закона".toList = some ("7", "Название закона") ∧
    (articleHeaderMatch (String.mk ("Порядок установлен ранее, см.".toList ++
      ' ' :: "Статья 7. Название закона".toList))).isSome = true :=
  ⟨by decide, rfl,
   claim_C2_unanchored "Порядок установлен ранее, см.".toList
     "Статья 7. Название закона".toList ("7", "Название закона") (by decide) rfl⟩

/-- C3, counterexample: on Scenario A's stream the engine emits *zero* records,
not two — both candidates are flushed but discarded because their bodies
("Body one.", "Body two.") are only 9 characters, failing the >20 length
invariant. -/
theorem claim_C3_counterexample :
    parseArticleParas scenAStream "xx" "h0" noChapter = [] := rfl

/-- C3 (amended): a header line in any state flushes the current candidate and
starts a new one, and with bodies longer than 20 characters the stream emits
exactly the two records (article 5 "Foo" and article 6 "Bar" with their
bodies); with Scenario A's 9-character bodies both candidates are discarded by
the length invariant and nothing is emitted. -/
theorem claim_C3_two_records :
    parseArticleParas scenALongStream "xx" "h0" noChapter = [artFoo, artBar] ∧
    parseArticleParas scenAStream "xx" "h0" noChapter = [] := ⟨rfl, rfl⟩

/-- C4: every record emitted by the segmentation engine — from a paragraph
stream, from a page, or surviving into the Combined Corpus — has normalized
text strictly longer than 20 characters; shorter candidates are never emitted. -/
theorem claim_C4_min_length (paras : List (String × List String)) (cid ph : String)
    (f : String → String → String) (content : DomNode) (docs : String → List PageFile) :
    (∀ a ∈ parseArticleParas paras cid ph f, 20 < a.text.length) ∧
    (∀ a ∈ parse_article_page content cid ph f, 20 < a.text.length) ∧
    (∀ a ∈ combinedCorpus docs f, 20 < a.text.length) := by
  refine ⟨fun a ha => (parseArticleParas_good a ha).1,
    fun a ha => (parse_article_page_good a ha).1, fun a ha => ?_⟩
  obtain ⟨cid', -, hmem⟩ := List.mem_flatMap.mp ha
  exact (parse_codex_good a hmem).1

/-- C4 witness: the theorem applied to a concrete emitted record. -/
theorem claim_C4_min_length_witness :
    artFoo ∈ parseArticleParas scenALongStream "xx" "h0" noChapter ∧
    20 < artFoo.text.length :=
  ⟨by decide,
   (claim_C4_min_length scenALongStream "xx" "h0" noChapter domLong (fun _ => [])).1
     artFoo (by decide)⟩

/-- C5: no two records of the Combined Corpus share the `(code_id, article_num)`
composite key, and within a Code the record kept for any key is exactly the
first candidate with that key in page-enumeration order (the filter of the
Code's output at any key equals the first element of the filter of the raw
candidate stream at that key); later duplicates are dropped without error. -/
theorem claim_C5_unique_first_wins (docs : String → List PageFile)
    (f g : String → String → String) (cid : String) (pages : List PageFile)
    (k : String × String) :
    (combinedCorpus docs f).Pairwise (fun a b => articleKey a ≠ articleKey b) ∧
    (parse_codex cid pages g).filter (fun a => decide (articleKey a = k)) =
      ((rawCandidates cid pages g).filter (fun a => decide (articleKey a = k))).take 1 := by
  constructor
  · unfold combinedCorpus
    apply pairwise_keyNe_flatMap codexIds _ (by decide)
    · intro i a ha
      exact (parse_codex_good a ha).2.1
    · intro i
      exact ((sortPhase_perm _).pairwise_iff (fun h he => h he.symm)).mpr pairwise_dedupFrom
  · have hfil : (dedupArticles (rawCandidates cid pages g)).filter
        (fun a => decide (articleKey a = k)) =
        ((rawCandidates cid pages g).filter (fun a => decide (articleKey a = k))).take 1 := by
      have h := @dedupFrom_filter_key (rawCandidates cid pages g) [] k
      simpa using h
    have hlen : ((dedupArticles (rawCandidates cid pages g)).filter
        (fun a => decide (articleKey a = k))).length ≤ 1 := by
      rw [hfil]
      exact List.length_take_le 1 _
    unfold parse_codex
    rw [sortPhase_filter_small hlen, hfil]

/-- C6: if any record in the list reaching the sort has an `article_num` on
which the sort key raises (some dot-group fails integer parsing), the
`try/except` skips sorting entirely: the list is returned unchanged, in
encounter order, and no error escapes. -/
theorem claim_C6_failsoft_sort (arts : List Article) (a : Article)
    (ha : a ∈ arts) (hbad : sortKeyOpt a = none) : sortPhase arts = arts := by
  have h : ¬ (arts.all (fun a => (sortKeyOpt a).isSome) = true) := by
    intro hall
    have := List.all_eq_true.mp hall a ha
    rw [hbad] at this
    exact absurd this (by simp)
  unfold sortPhase
  rw [if_neg h]

/-- C6 witness: Scenario D's group with the malformed value "abc" is returned
in its original encounter order. -/
theorem claim_C6_failsoft_sort_witness :
    mkNumArt "abc" ∈ [mkNumArt "2", mkNumArt "10", mkNumArt "1.5", mkNumArt "abc"] ∧
    sortKeyOpt (mkNumArt "abc") = none ∧
    sortPhase [mkNumArt "2", mkNumArt "10", mkNumArt "1.5", mkNumArt "abc"] =
      [mkNumArt "2", mkNumArt "10", mkNumArt "1.5", mkNumArt "abc"] :=
  ⟨by decide, rfl,
   claim_C6_failsoft_sort [mkNumArt "2", mkNumArt "10", mkNumArt "1.5", mkNumArt "abc"]
     (mkNumArt "abc") (by decide) rfl⟩

/-- C7: when every record's `article_num` parses as a dotted numeric, the sort
phase orders the group ascending by the lexicographic comparison of the
integer tuples (the output is pairwise non-decreasing and a permutation of
the input). -/
theorem claim_C7_sort_order (arts : List Article)
    (h : arts.all (fun a => (sortKeyOpt a).isSome) = true) :
    (sortPhase arts).Pairwise (fun a b => articleLe a b = true) ∧
    List.Perm (sortPhase arts) arts := by
  constructor
  · unfold sortPhase
    rw [if_pos h]
    exact List.sorted_mergeSort (fun a b c => articleLe_trans a b c)
      (fun a b => articleLe_total a b) arts
  · exact sortPhase_perm arts

/-- C7 witness: the group "2", "10", "1.5" comes out as "1.5", "2", "10". -/
theorem claim_C7_sort_order_witness :
    ([mkNumArt "2", mkNumArt "10", mkNumArt "1.5"].all
      (fun a => (sortKeyOpt a).isSome) = true) ∧
    ((sortPhase [mkNumArt "2", mkNumArt "10", mkNumArt "1.5"]).Pairwise
      (fun a b => articleLe a b = true) ∧
     List.Perm (sortPhase [mkNumArt "2", mkNumArt "10", mkNumArt "1.5"])
       [mkNumArt "2", mkNumArt "10", mkNumArt "1.5"]) ∧
    (sortPhase [mkNumArt "2", mkNumArt "10", mkNumArt "1.5"]).map Article.article_num =
      ["1.5", "2", "10"] := by
  refine ⟨rfl, claim_C7_sort_order [mkNumArt "2", mkNumArt "10", mkNumArt "1.5"] rfl, ?_⟩
  have hall : ([mkNumArt "2", mkNumArt "10", mkNumArt "1.5"].all
      fun a => (sortKeyOpt a).isSome) = true := rfl
  unfold sortPhase
  rw [if_pos hall]
  simp [List.mergeSort, List.merge,
    (show articleLe (mkNumArt "2") (mkNumArt "10") = true from rfl),
    (show articleLe (mkNumArt "2") (mkNumArt "1.5") = false from rfl),
    (show articleLe (mkNumArt "10") (mkNumArt "1.5") = false from rfl),
    (show articleLe (mkNumArt "1.5") (mkNumArt "2") = true from rfl),
    (show articleLe (mkNumArt "10") (mkNumArt "2") = false from rfl),
    (show articleLe (mkNumArt "1.5") (mkNumArt "10") = true from rfl)]
  exact ⟨rfl, rfl, rfl⟩

/-- C8: the engine is deterministic — it is a pure function of the input
document set (and chapter lookup), with no hidden state across runs, so two
runs over identical inputs produce identical Combined Corpus output, same
records in the same order. -/
theorem claim_C8_deterministic (docs1 docs2 : String → List PageFile)
    (f1 f2 : String → String → String) (h1 : docs1 = docs2) (h2 : f1 = f2) :
    combinedCorpus docs1 f1 = combinedCorpus docs2 f2 := by
  rw [h1, h2]

/-- C8 witness: two identical concrete runs coincide. -/
theorem claim_C8_deterministic_witness :
    ((fun _ : String => pagesLong) = (fun _ : String => pagesLong)) ∧
    combinedCorpus (fun _ => pagesLong) noChapter =
      combinedCorpus (fun _ => pagesLong) noChapter :=
  ⟨rfl, claim_C8_deterministic _ _ noChapter noChapter rfl rfl⟩

/-- C9: every record produced by the page parser has an `article_num` of shape
`\d+(\.\d+)?`, hence its integer-tuple sort key always computes (never
raises), and `parse_codex` always takes the sorted branch — the fail-soft
skip branch is unreachable for parser-produced records. -/
theorem claim_C9_parser_nums (cid : String) (pages : List PageFile)
    (f : String → String → String) :
    (∀ a ∈ rawCandidates cid pages f,
      dottedNumeric a.article_num = true ∧ (sortKeyOpt a).isSome = true) ∧
    parse_codex cid pages f =
      (dedupArticles (rawCandidates cid pages f)).mergeSort articleLe := by
  constructor
  · intro a ha
    have hg := rawCandidates_good a ha
    exact ⟨hg.2.2, dotted_sortKey_isSome hg.2.2⟩
  · exact parse_codex_sorted_branch cid pages f

/-- C9 witness: the theorem at a concrete one-page Code. -/
theorem claim_C9_parser_nums_witness :
    artFoo ∈ rawCandidates "xx" pagesLong noChapter ∧
    (dottedNumeric artFoo.article_num = true ∧ (sortKeyOpt artFoo).isSome = true) ∧
    parse_codex "xx" pagesLong noChapter =
      (dedupArticles (rawCandidates "xx" pagesLong noChapter)).mergeSort articleLe :=
  ⟨by decide, (claim_C9_parser_nums "xx" pagesLong noChapter).1 artFoo (by decide),
   (claim_C9_parser_nums "xx" pagesLong noChapter).2⟩

/-- C10: a paragraph whose stripped text is empty or shorter than 3 characters
is ignored entirely by the loop — the step is the identity on the state, so it
is never matched as a header nor appended as body, and deleting all such
paragraphs from the stream leaves the engine's output unchanged. -/
theorem claim_C10_short_ignored (cid ph : String) (f : String → String → String) :
    (∀ (st : PState) (p : String × List String),
        p.1 = "" ∨ p.1.length < 3 → stepPara cid ph f st p = st) ∧
    (∀ paras : List (String × List String),
        parseArticleParas (paras.filter (fun p => !(p.1 == "" || p.1.length < 3)))
            cid ph f =
          parseArticleParas paras cid ph f) := by
  constructor
  · intro st p hp
    exact stepPara_short_id hp
  · intro paras
    unfold parseArticleParas
    rw [foldl_congr_filter (stepPara cid ph f) _ (fun st p hp => stepPara_short_id (by
      have h2 : (p.1 == "" || decide (p.1.length < 3)) = true := by
        revert hp
        cases p.1 == "" || decide (p.1.length < 3) <;> simp
      by_cases he : p.1 = ""
      · exact Or.inl he
      · right
        rw [(by simp [he] : (p.1 == "") = false)] at h2
        simpa using h2))]

/-- C10 witness: a one-character paragraph leaves the state untouched. -/
theorem claim_C10_short_ignored_witness :
    (("x" : String) = "" ∨ ("x" : String).length < 3) ∧
    stepPara "xx" "h0" noChapter initState ("x", []) = initState :=
  ⟨Or.inr (by decide),
   (claim_C10_short_ignored "xx" "h0" noChapter).1 initState ("x", []) (Or.inr (by decide))⟩
